import Mathlib

/-!
Shallow embedding of `list_executions.py` (aws-sf-log-searcher).

Modelling conventions:
- Timestamps (`datetime` instants) are integers; `timedelta(hours=h)` is
  `3600 * h` seconds, and `datetime.datetime.now(timezone.utc)` is an
  explicit `now` parameter.
- The AWS SDK (`boto3`) is an external collaborator, modelled as an
  environment of pure functions: `paginate` maps the listing request to the
  pages the service returns, `describe` maps an execution ARN to the detail
  record, and `parse` is the `json.loads` oracle (`none` models
  `json.JSONDecodeError`). The `region` argument only configures the client
  and is absorbed into the environment.
- Python exceptions that escape the local `try` block (`AttributeError`
  from `.get` on a non-dict, `TypeError` from `in` on a non-container) are
  modelled with `Except`; the `try/except (json.JSONDecodeError, KeyError)`
  block is translated by explicit case analysis on the places those two
  exceptions can arise (`json.loads` failing, and `details['input']` being
  absent).
- The record field `start_date` keeps the instant itself; the source stores
  `startDate.strftime(...)`, a rendering of that instant, and no claim
  depends on the rendered text.
- `formatted_input = json.dumps(input_data, indent=4)` is modelled as the
  constructor `RecordInput.formatted input_data`: the serialized text is
  kept as the parsed value it serializes, while the fallback raw string is
  `RecordInput.raw`.
-/

/-- A JSON value, the result of `json.loads`. Numeric payloads are
abstracted to integers: the filters only ever distinguish strings from
non-strings. -/
inductive JValue where
  | null
  | bool (b : Bool)
  | num (n : Int)
  | str (s : String)
  | arr (xs : List JValue)
  | obj (fields : List (String × JValue))

/-- Python exceptions that are not caught by the `try/except` in
`get_executions` and therefore propagate to `main`. -/
inductive PyError where
  | attributeError
  | typeError
  deriving DecidableEq

/-- Python `d.get(k)` on a parsed JSON value: only dicts have `.get`;
every other value raises `AttributeError`. -/
def lookupField : List (String × JValue) → String → Option JValue
  | [], _ => none
  | (k1, v1) :: rest, k => if k1 = k then some v1 else lookupField rest k

def pyGet (v : JValue) (k : String) : Except PyError (Option JValue) :=
  match v with
  | .obj fields => .ok (lookupField fields k)
  | _ => .error .attributeError

/-- Contiguous-substring test on character lists, Python `needle in hay`
for strings. -/
def listContains : List Char → List Char → Bool
  | [], needle => needle.isEmpty
  | c :: t, needle => needle.isPrefixOf (c :: t) || listContains t needle

def strContains (hay needle : String) : Bool :=
  listContains hay.toList needle.toList

/-- Python `needle in container` for a parsed JSON value: substring test on
strings, element membership on lists, key membership on dicts,
`TypeError` on everything else. Equality of a Python `str` with a non-`str`
JSON value is `False`. -/
def pyIn (needle : String) (container : JValue) : Except PyError Bool :=
  match container with
  | .str s => .ok (strContains s needle)
  | .arr xs => .ok (xs.any fun x => match x with | .str s => s == needle | _ => false)
  | .obj fields => .ok (fields.any fun f => f.1 == needle)
  | _ => .error .typeError

/-- Python `input_data.get('name') != name_filter` with the inequality
flipped: `true` iff the looked-up value equals the filter string. A missing
key (`None`) or a non-string value never equals a Python `str`. -/
def jOptEqStr : Option JValue → String → Bool
  | some (.str s), n => s == n
  | _, _ => false

/-- One element of a `list_executions` page. -/
structure ExecSummary where
  executionArn : String
  name : String
  status : String
  startDate : Int

/-- The `describe_execution` response, reduced to the one field read by the
code: `input` is `none` when the response lacks an `input` key (so that
`execution_details['input']` raises `KeyError`). -/
structure ExecDetails where
  input : Option String

/-- The input payload stored in a result record: either the parsed value
(stored by the source as `json.dumps(input_data, indent=4)`) or a raw
string (the unparsed input, or the `'No input available'` default). -/
inductive RecordInput where
  | formatted (input_data : JValue)
  | raw (s : String)

/-- One element of the list returned by `get_executions`. -/
structure Record where
  name : String
  status : String
  start_date : Int
  state_machine_arn : String
  input : RecordInput

/-- The keyword arguments passed to `paginator.paginate(**paginator_args)`
for `list_executions`. -/
structure ListExecArgs where
  stateMachineArn : String
  statusFilter : Option String

/-- The environment: the external Step Functions API plus the JSON parser. -/
structure SfnEnv where
  paginate : ListExecArgs → List (List ExecSummary)
  describe : String → ExecDetails
  parse : String → Option JValue

/-- Builds `paginator_args`: `statusFilter` is added only when the status
argument differs from `'ALL'`. -/
def paginatorArgs (state_machine_arn : String) (status : String) : ListExecArgs :=
  { stateMachineArn := state_machine_arn,
    statusFilter := if status = "ALL" then none else some status }

/-- The `name_filter` guard:
`if name_filter is not None and input_data.get('name') != name_filter: continue`.
Returns `true` when the record passes (no `continue`). -/
def checkName (name_filter : Option String) (input_data : JValue) :
    Except PyError Bool :=
  match name_filter with
  | none => .ok true
  | some n =>
      match pyGet input_data "name" with
      | .error e => .error e
      | .ok g => .ok (jOptEqStr g n)

/-- The `key_filter` guard:
`if key_filter is not None and key_filter not in input_data.get('key', ''): continue`.
Returns `true` when the record passes. -/
def checkKey (key_filter : Option String) (input_data : JValue) :
    Except PyError Bool :=
  match key_filter with
  | none => .ok true
  | some k =>
      match pyGet input_data "key" with
      | .error e => .error e
      | .ok g =>
          match pyIn k (g.getD (JValue.str "")) with
          | .error e => .error e
          | .ok b => .ok b

/-- The body handling one in-window execution after `describe_execution`:
the `try/except (json.JSONDecodeError, KeyError)` block together with the
two filter guards. `.ok none` models `continue` (record skipped), `.ok
(some ri)` models falling through to the append with `formatted_input =
ri`, `.error` models an uncaught exception. -/
def processInput (name_filter key_filter : Option String)
    (details : ExecDetails) (parse : String → Option JValue) :
    Except PyError (Option RecordInput) :=
  match details.input with
  | none =>
      if name_filter.isSome || key_filter.isSome then .ok none
      else .ok (some (.raw "No input available"))
  | some s =>
      match parse s with
      | none =>
          if name_filter.isSome || key_filter.isSome then .ok none
          else .ok (some (.raw s))
      | some input_data =>
          match checkName name_filter input_data with
          | .error e => .error e
          | .ok false => .ok none
          | .ok true =>
              match checkKey key_filter input_data with
              | .error e => .error e
              | .ok false => .ok none
              | .ok true => .ok (some (.formatted input_data))

/-- The dict appended to `executions` for one kept execution. -/
def mkRecord (state_machine_arn : String) (execution : ExecSummary)
    (formatted_input : RecordInput) : Record :=
  { name := execution.name,
    status := execution.status,
    start_date := execution.startDate,
    state_machine_arn := state_machine_arn,
    input := formatted_input }

/-- Outcome of the inner `for execution in page['executions']` loop on one
page: the page was exhausted, the `else: return executions` early return
fired, or an uncaught exception aborted the scan. Each carries the
accumulated records and the trace of `describe_execution` calls made. -/
inductive PageOut where
  | pageDone (executions : List Record) (calls : List String)
  | earlyReturn (executions : List Record) (calls : List String)
  | failed (e : PyError) (calls : List String)

/-- Outcome of the whole scan: the returned list, or an uncaught
exception; both carry the `describe_execution` call trace. -/
inductive ScanOut where
  | ok (executions : List Record) (calls : List String)
  | failed (e : PyError) (calls : List String)

def ScanOut.callsOf : ScanOut → List String
  | .ok _ c => c
  | .failed _ c => c

def ScanOut.isOk : ScanOut → Bool
  | .ok _ _ => true
  | .failed _ _ => false

/-- The inner loop over one page. -/
def scanPage (env : SfnEnv) (name_filter key_filter : Option String)
    (start_time : Int) (arn : String) :
    List ExecSummary → List Record → List String → PageOut
  | [], executions, calls => .pageDone executions calls
  | e :: rest, executions, calls =>
      if start_time ≤ e.startDate then
        match processInput name_filter key_filter (env.describe e.executionArn)
            env.parse with
        | .error err => .failed err (calls ++ [e.executionArn])
        | .ok none =>
            scanPage env name_filter key_filter start_time arn rest
              executions (calls ++ [e.executionArn])
        | .ok (some ri) =>
            scanPage env name_filter key_filter start_time arn rest
              (executions ++ [mkRecord arn e ri]) (calls ++ [e.executionArn])
      else .earlyReturn executions calls

/-- The outer loop over pages: an early return from a page returns the
accumulated records; a finished page carries its accumulator to the next. -/
def scanPages (env : SfnEnv) (name_filter key_filter : Option String)
    (start_time : Int) (arn : String) :
    List (List ExecSummary) → List Record → List String → ScanOut
  | [], executions, calls => .ok executions calls
  | p :: rest, executions, calls =>
      match scanPage env name_filter key_filter start_time arn p executions calls with
      | .pageDone r c => scanPages env name_filter key_filter start_time arn rest r c
      | .earlyReturn r c => .ok r c
      | .failed e c => .failed e c

/-- `get_executions(state_machine_arn, hours, status, name_filter,
key_filter, region)`: computes `start_time = now - timedelta(hours)`,
requests pages with `paginator_args`, and runs the scan loop. -/
def get_executions (env : SfnEnv) (state_machine_arn : String) (hours : Int)
    (status : String) (name_filter key_filter : Option String) (now : Int) :
    ScanOut :=
  scanPages env name_filter key_filter (now - 3600 * hours) state_machine_arn
    (env.paginate (paginatorArgs state_machine_arn status)) [] []

/-- The page-structure-free rendering of the same scan: iterating the
flattened page contents. Proved equal to `scanPages` on the concatenation
of the pages (`scanPages_eq_flatScan`). -/
def flatScan (env : SfnEnv) (name_filter key_filter : Option String)
    (start_time : Int) (arn : String) :
    List ExecSummary → List Record → List String → ScanOut
  | [], executions, calls => .ok executions calls
  | e :: rest, executions, calls =>
      if start_time ≤ e.startDate then
        match processInput name_filter key_filter (env.describe e.executionArn)
            env.parse with
        | .error err => .failed err (calls ++ [e.executionArn])
        | .ok none =>
            flatScan env name_filter key_filter start_time arn rest
              executions (calls ++ [e.executionArn])
        | .ok (some ri) =>
            flatScan env name_filter key_filter start_time arn rest
              (executions ++ [mkRecord arn e ri]) (calls ++ [e.executionArn])
      else .ok executions calls

/-- `get_state_machines`: appends every ARN of every page. -/
def get_state_machines (pages : List (List String)) : List String :=
  pages.flatten

/-- The parsed command-line arguments consumed by `main`. -/
structure Args where
  hours : Int
  state_machine : Option String
  status : String
  name : Option String
  key_contains : Option String

/-- Resolution of the working set inside `main`: the explicit single
target when `--state-machine` was given, else the Discovery result (which,
being a network call, may itself raise). -/
def resolveTargets (args : Args)
    (smPages : Except PyError (List (List String))) :
    Except PyError (List String) :=
  match args.state_machine with
  | some sm => .ok [sm]
  | none => smPages.map get_state_machines

/-- The `for state_machine in state_machines` loop of `main`: the first
scan that raises aborts the loop and `main` returns `1` after reporting the
error; otherwise the loop completes and `main` returns `0`. The pair is
(exit code, reported error). -/
def mainLoop (env : SfnEnv) (args : Args) (now : Int) :
    List String → Int × Option PyError
  | [] => (0, none)
  | sm :: rest =>
      match get_executions env sm args.hours args.status args.name
          args.key_contains now with
      | .failed e _ => (1, some e)
      | .ok _ _ => mainLoop env args now rest

/-- The source function `main` (the name `main` is reserved by Lean for an
entry point of another type): resolves targets inside the `try`, scans
each, and converts any exception into the printed `Error:` message and
exit code `1`; returns `0` otherwise. Console rendering of successful
results is elided (it cannot raise in the model). -/
def mainFn (env : SfnEnv) (smPages : Except PyError (List (List String)))
    (args : Args) (now : Int) : Int × Option PyError :=
  match resolveTargets args smPages with
  | .error e => (1, some e)
  | .ok sms => mainLoop env args now sms

/-! Helper lemmas: page structure is irrelevant to the scan. -/

theorem flatScan_append_page (env : SfnEnv) (nf kf : Option String)
    (st : Int) (arn : String) :
    ∀ (p rest : List ExecSummary) (acc : List Record) (calls : List String),
    flatScan env nf kf st arn (p ++ rest) acc calls =
      (match scanPage env nf kf st arn p acc calls with
       | .pageDone r c => flatScan env nf kf st arn rest r c
       | .earlyReturn r c => ScanOut.ok r c
       | .failed e c => ScanOut.failed e c) := by
  intro p
  induction p with
  | nil => intro rest acc calls; simp [flatScan, scanPage]
  | cons e p ih =>
      intro rest acc calls
      simp only [List.cons_append, flatScan, scanPage]
      by_cases h : st ≤ e.startDate
      · simp only [if_pos h]
        cases hp : processInput nf kf (env.describe e.executionArn) env.parse with
        | error err => rfl
        | ok o =>
            cases o with
            | none => exact ih rest acc (calls ++ [e.executionArn])
            | some ri => exact ih rest (acc ++ [mkRecord arn e ri]) (calls ++ [e.executionArn])
      · simp only [if_neg h]

theorem scanPages_eq_flatScan (env : SfnEnv) (nf kf : Option String)
    (st : Int) (arn : String) :
    ∀ (pages : List (List ExecSummary)) (acc : List Record) (calls : List String),
    scanPages env nf kf st arn pages acc calls =
      flatScan env nf kf st arn pages.flatten acc calls := by
  intro pages
  induction pages with
  | nil => intro acc calls; simp [scanPages, flatScan]
  | cons p rest ih =>
      intro acc calls
      rw [List.flatten_cons, flatScan_append_page]
      simp only [scanPages]
      cases scanPage env nf kf st arn p acc calls with
      | pageDone r c => exact ih r c
      | earlyReturn r c => rfl
      | failed e c => rfl

theorem get_executions_eq_flatScan (env : SfnEnv) (arn : String) (hours : Int)
    (status : String) (nf kf : Option String) (now : Int) :
    get_executions env arn hours status nf kf now =
      flatScan env nf kf (now - 3600 * hours) arn
        (env.paginate (paginatorArgs arn status)).flatten [] [] := by
  rw [get_executions, scanPages_eq_flatScan]

/-! Helper lemmas: scan invariants. -/

theorem flatScan_ok_mono (env : SfnEnv) (nf kf : Option String)
    (st : Int) (arn : String) :
    ∀ (l : List ExecSummary) (acc : List Record) (calls : List String)
      (recs : List Record) (c : List String),
    flatScan env nf kf st arn l acc calls = .ok recs c →
    ∃ t, recs = acc ++ t := by
  intro l
  induction l with
  | nil =>
      intro acc calls recs c h
      simp only [flatScan] at h
      cases h
      exact ⟨[], by simp⟩
  | cons e l ih =>
      intro acc calls recs c h
      simp only [flatScan] at h
      by_cases hcut : st ≤ e.startDate
      · rw [if_pos hcut] at h
        cases hp : processInput nf kf (env.describe e.executionArn) env.parse with
        | error err => rw [hp] at h; cases h
        | ok o =>
            rw [hp] at h
            cases o with
            | none => exact ih acc _ recs c h
            | some ri =>
                obtain ⟨t, ht⟩ := ih (acc ++ [mkRecord arn e ri]) _ recs c h
                exact ⟨mkRecord arn e ri :: t, by simp [ht]⟩
      · rw [if_neg hcut] at h
        cases h
        exact ⟨[], by simp⟩

theorem flatScan_ok_pres (env : SfnEnv) (nf kf : Option String)
    (st : Int) (arn : String) (P : Record → Prop)
    (hP : ∀ (e : ExecSummary) (ri : RecordInput), st ≤ e.startDate →
      processInput nf kf (env.describe e.executionArn) env.parse = .ok (some ri) →
      P (mkRecord arn e ri)) :
    ∀ (l : List ExecSummary) (acc : List Record) (calls : List String)
      (recs : List Record) (c : List String),
    (∀ r ∈ acc, P r) →
    flatScan env nf kf st arn l acc calls = .ok recs c →
    ∀ r ∈ recs, P r := by
  intro l
  induction l with
  | nil =>
      intro acc calls recs c hacc h
      simp only [flatScan] at h
      cases h
      exact hacc
  | cons e l ih =>
      intro acc calls recs c hacc h
      simp only [flatScan] at h
      by_cases hcut : st ≤ e.startDate
      · rw [if_pos hcut] at h
        cases hp : processInput nf kf (env.describe e.executionArn) env.parse with
        | error err => rw [hp] at h; cases h
        | ok o =>
            rw [hp] at h
            cases o with
            | none => exact ih acc _ recs c hacc h
            | some ri =>
                refine ih (acc ++ [mkRecord arn e ri]) _ recs c ?_ h
                intro r hr
                rcases List.mem_append.mp hr with hr | hr
                · exact hacc r hr
                · rcases List.mem_singleton.mp hr with rfl
                  exact hP e ri hcut hp
      · rw [if_neg hcut] at h
        cases h
        exact hacc

theorem flatScan_calls_isPrefix (env : SfnEnv) (nf kf : Option String)
    (st : Int) (arn : String) :
    ∀ (l : List ExecSummary) (acc : List Record) (calls : List String),
    ∃ l2, l2 <+: l ∧
      (flatScan env nf kf st arn l acc calls).callsOf =
        calls ++ l2.map (·.executionArn) := by
  intro l
  induction l with
  | nil =>
      intro acc calls
      exact ⟨[], List.prefix_refl _, by simp [flatScan, ScanOut.callsOf]⟩
  | cons e l ih =>
      intro acc calls
      by_cases hcut : st ≤ e.startDate
      · cases hp : processInput nf kf (env.describe e.executionArn) env.parse with
        | error err =>
            refine ⟨[e], ⟨l, rfl⟩, ?_⟩
            simp [flatScan, if_pos hcut, hp, ScanOut.callsOf]
        | ok o =>
            cases o with
            | none =>
                obtain ⟨l2, hpre, hc⟩ := ih acc (calls ++ [e.executionArn])
                refine ⟨e :: l2, ?_, ?_⟩
                · exact (List.prefix_cons_inj e).mpr hpre
                · simp only [flatScan, if_pos hcut, hp]
                  simp [hc]
            | some ri =>
                obtain ⟨l2, hpre, hc⟩ := ih (acc ++ [mkRecord arn e ri]) (calls ++ [e.executionArn])
                refine ⟨e :: l2, ?_, ?_⟩
                · exact (List.prefix_cons_inj e).mpr hpre
                · simp only [flatScan, if_pos hcut, hp]
                  simp [hc]
      · refine ⟨[], List.nil_prefix, ?_⟩
        simp [flatScan, if_neg hcut, ScanOut.callsOf]

theorem flatScan_stops (env : SfnEnv) (nf kf : Option String)
    (st : Int) (arn : String) (e : ExecSummary) (he : e.startDate < st) :
    ∀ (pre post : List ExecSummary) (acc : List Record) (calls : List String),
    (∀ x ∈ pre, st ≤ x.startDate) →
    flatScan env nf kf st arn (pre ++ e :: post) acc calls =
      flatScan env nf kf st arn pre acc calls := by
  intro pre
  induction pre with
  | nil =>
      intro post acc calls _
      simp [flatScan, if_neg (not_le.mpr he)]
  | cons x pre ih =>
      intro post acc calls hpre
      have hx : st ≤ x.startDate := hpre x (by simp)
      have hrest : ∀ y ∈ pre, st ≤ y.startDate := fun y hy => hpre y (by simp [hy])
      simp only [List.cons_append, flatScan, if_pos hx]
      cases hp : processInput nf kf (env.describe x.executionArn) env.parse with
      | error err => rfl
      | ok o =>
          cases o with
          | none => exact ih post acc _ hrest
          | some ri => exact ih post _ _ hrest

/-! Helper lemmas: characterizing the filter guards. -/

theorem jOptEqStr_eq_true_iff (g : Option JValue) (n : String) :
    jOptEqStr g n = true ↔ g = some (JValue.str n) := by
  cases g with
  | none => simp [jOptEqStr]
  | some v =>
      cases v with
      | str s => simp [jOptEqStr]
      | null => simp [jOptEqStr]
      | bool b => simp [jOptEqStr]
      | num m => simp [jOptEqStr]
      | arr xs => simp [jOptEqStr]
      | obj fs => simp [jOptEqStr]

theorem strContains_empty_iff (k : String) :
    strContains "" k = true ↔ k = "" := by
  constructor
  · intro h
    simp only [strContains, listContains, String.toList, List.isEmpty_iff] at h
    cases k with
    | mk data => simp_all
  · intro h
    subst h
    rfl

theorem processInput_keep (nf kf : Option String) (details : ExecDetails)
    (parse : String → Option JValue) (ri : RecordInput)
    (hset : nf.isSome ∨ kf.isSome)
    (h : processInput nf kf details parse = .ok (some ri)) :
    ∃ v, ri = .formatted v ∧ checkName nf v = .ok true ∧ checkKey kf v = .ok true := by
  have hb : (nf.isSome || kf.isSome) = true := by
    rcases hset with hs | hs <;> simp [hs]
  obtain ⟨inp⟩ := details
  cases inp with
  | none =>
      simp only [processInput, hb, if_true] at h
      simp at h
  | some s =>
      cases hp : parse s with
      | none =>
          simp only [processInput, hp, hb, if_true] at h
          simp at h
      | some v =>
          simp only [processInput, hp] at h
          cases hn : checkName nf v with
          | error e => simp [hn] at h
          | ok b =>
              simp only [hn] at h
              cases b with
              | false => simp at h
              | true =>
                  cases hk : checkKey kf v with
                  | error e => simp [hk] at h
                  | ok b2 =>
                      simp only [hk] at h
                      cases b2 with
                      | false => simp at h
                      | true =>
                          simp only [Except.ok.injEq, Option.some.injEq] at h
                          exact ⟨v, h.symm, hn, hk⟩

theorem checkName_some_true (n : String) (v : JValue)
    (h : checkName (some n) v = .ok true) :
    pyGet v "name" = .ok (some (JValue.str n)) := by
  simp only [checkName] at h
  cases hg : pyGet v "name" with
  | error e => simp [hg] at h
  | ok g =>
      simp only [hg, Except.ok.injEq] at h
      rw [(jOptEqStr_eq_true_iff g n).mp h]

theorem checkKey_some_true (k : String) (v : JValue)
    (h : checkKey (some k) v = .ok true) :
    ∃ g, pyGet v "key" = .ok g ∧ pyIn k (g.getD (JValue.str "")) = .ok true := by
  simp only [checkKey] at h
  cases hg : pyGet v "key" with
  | error e => simp [hg] at h
  | ok g =>
      simp only [hg] at h
      refine ⟨g, rfl, ?_⟩
      cases hi : pyIn k (g.getD (JValue.str "")) with
      | error e => simp [hi] at h
      | ok b =>
          simp only [hi, Except.ok.injEq] at h
          rw [h]

theorem checkKey_absent (k : String) (v : JValue)
    (h : checkKey (some k) v = .ok true)
    (hg : pyGet v "key" = .ok none) : k = "" := by
  obtain ⟨g, hg2, hi⟩ := checkKey_some_true k v h
  rw [hg] at hg2
  injection hg2 with hg3
  subst hg3
  simp only [Option.getD_none, pyIn, Except.ok.injEq] at hi
  exact (strContains_empty_iff k).mp hi

theorem checkKey_str (k w : String) (v : JValue)
    (h : checkKey (some k) v = .ok true)
    (hg : pyGet v "key" = .ok (some (JValue.str w))) : strContains w k = true := by
  obtain ⟨g, hg2, hi⟩ := checkKey_some_true k v h
  rw [hg] at hg2
  injection hg2 with hg3
  subst hg3
  simp only [Option.getD_some, pyIn, Except.ok.injEq] at hi
  exact hi

/-! Concrete sample environments for witnesses and counterexamples. -/

/-- Sample pages: start times 90000, 50000, 5000, 4000 (descending); with
`now = 100000` and `hours = 24` the cutoff is `13600`, so the third
execution is the first one below the window. -/
def pagesW : List (List ExecSummary) :=
  [[⟨"a1", "e1", "SUCCEEDED", 90000⟩],
   [⟨"a2", "e2", "FAILED", 50000⟩, ⟨"a3", "e3", "SUCCEEDED", 5000⟩],
   [⟨"a4", "e4", "RUNNING", 4000⟩]]

/-- Sample parser: only the text `OBJ1` is well-formed JSON. -/
def parseW : String → Option JValue := fun s =>
  if s = "OBJ1" then some (.obj [("name", .str "job-a"), ("key", .str "batch-42")])
  else none

/-- Sample detail responses: `a1` carries parseable input, `a2` carries
unparseable input, `a3` has no `input` key at all. -/
def describeW : String → ExecDetails := fun a =>
  if a = "a1" then ⟨some "OBJ1"⟩
  else if a = "a2" then ⟨some "RAW"⟩
  else if a = "a3" then ⟨none⟩
  else ⟨some "OBJ1"⟩

def envW : SfnEnv :=
  { paginate := fun _ => pagesW, describe := describeW, parse := parseW }

/-- Environment whose first in-window execution has input that is valid
JSON but not an object (`[1]`), and whose second has an object input whose
`name` field is `n`. -/
def envC3 : SfnEnv :=
  { paginate := fun _ =>
      [[⟨"a1", "e1", "SUCCEEDED", 90000⟩, ⟨"a2", "e2", "SUCCEEDED", 80000⟩]],
    describe := fun a => if a = "a1" then ⟨some "ARR"⟩ else ⟨some "OBJ"⟩,
    parse := fun s =>
      if s = "ARR" then some (.arr [.num 1])
      else if s = "OBJ" then some (.obj [("name", .str "n")])
      else none }

/-- Environment with a single in-window execution whose parsed input is an
object with no `key` field. -/
def envC4 : SfnEnv :=
  { paginate := fun _ => [[⟨"a1", "e1", "SUCCEEDED", 90000⟩]],
    describe := fun _ => ⟨some "NOKEY"⟩,
    parse := fun s => if s = "NOKEY" then some (.obj [("name", .str "x")]) else none }

/-! Claims. -/

/-- C1: every record in a list returned by the Execution Scan has a start
timestamp at or above the cutoff `now - hours`; an execution that started
strictly below the cutoff is never included, for every combination of
status, name and key filters (and for every environment). -/
theorem C1_lookback_honored (env : SfnEnv) (arn : String) (hours : Int)
    (status : String) (nf kf : Option String) (now : Int)
    (recs : List Record) (c : List String)
    (h : get_executions env arn hours status nf kf now = .ok recs c) :
    ∀ r ∈ recs, now - 3600 * hours ≤ r.start_date := by
  rw [get_executions_eq_flatScan] at h
  refine flatScan_ok_pres env nf kf (now - 3600 * hours) arn
    (fun r => now - 3600 * hours ≤ r.start_date) ?_ _ [] [] recs c (by simp) h
  intro e ri hcut _
  simpa [mkRecord] using hcut

theorem C1_witness :
    get_executions envW "sm" 24 "ALL" none none 100000 =
      .ok [mkRecord "sm" ⟨"a1", "e1", "SUCCEEDED", 90000⟩
             (.formatted (.obj [("name", JValue.str "job-a"), ("key", JValue.str "batch-42")])),
           mkRecord "sm" ⟨"a2", "e2", "FAILED", 50000⟩ (.raw "RAW")]
        ["a1", "a2"] ∧
    ∀ r ∈ [mkRecord "sm" ⟨"a1", "e1", "SUCCEEDED", 90000⟩
             (.formatted (.obj [("name", JValue.str "job-a"), ("key", JValue.str "batch-42")])),
           mkRecord "sm" ⟨"a2", "e2", "FAILED", 50000⟩ (.raw "RAW")],
      (100000 : Int) - 3600 * 24 ≤ r.start_date :=
  ⟨rfl, C1_lookback_honored envW "sm" 24 "ALL" none none 100000 _ _ rfl⟩

/-- C2: if the flattened page contents decompose as `pre ++ e :: post`
where every execution of `pre` is inside the window and `e` is below the
cutoff, then the scan behaves exactly as if only `pre` existed (it stops at
`e` and returns the results accumulated so far), and its
`describe_execution` call trace covers only an initial segment of `pre`:
no detail fetch happens for `e` or for anything after it, later pages
included. -/
theorem C2_early_termination (env : SfnEnv) (arn : String) (hours : Int)
    (status : String) (nf kf : Option String) (now : Int)
    (pre post : List ExecSummary) (e : ExecSummary)
    (hdecomp : (env.paginate (paginatorArgs arn status)).flatten = pre ++ e :: post)
    (hpre : ∀ x ∈ pre, now - 3600 * hours ≤ x.startDate)
    (he : e.startDate < now - 3600 * hours) :
    get_executions env arn hours status nf kf now =
      flatScan env nf kf (now - 3600 * hours) arn pre [] [] ∧
    ∃ pre2, pre2 <+: pre ∧
      (get_executions env arn hours status nf kf now).callsOf =
        pre2.map (·.executionArn) := by
  have h1 : get_executions env arn hours status nf kf now =
      flatScan env nf kf (now - 3600 * hours) arn pre [] [] := by
    rw [get_executions_eq_flatScan, hdecomp,
      flatScan_stops env nf kf (now - 3600 * hours) arn e he pre post [] [] hpre]
  refine ⟨h1, ?_⟩
  obtain ⟨l2, hp2, hc⟩ :=
    flatScan_calls_isPrefix env nf kf (now - 3600 * hours) arn pre [] []
  refine ⟨l2, hp2, ?_⟩
  rw [h1, hc]
  simp

theorem C2_witness :
    (envW.paginate (paginatorArgs "sm" "ALL")).flatten =
      [⟨"a1", "e1", "SUCCEEDED", 90000⟩, ⟨"a2", "e2", "FAILED", 50000⟩] ++
        ⟨"a3", "e3", "SUCCEEDED", 5000⟩ :: [⟨"a4", "e4", "RUNNING", 4000⟩] ∧
    (∀ x ∈ [(⟨"a1", "e1", "SUCCEEDED", 90000⟩ : ExecSummary),
            ⟨"a2", "e2", "FAILED", 50000⟩],
      (100000 : Int) - 3600 * 24 ≤ x.startDate) ∧
    (5000 : Int) < 100000 - 3600 * 24 ∧
    (get_executions envW "sm" 24 "ALL" none none 100000 =
      flatScan envW none none (100000 - 3600 * 24) "sm"
        [⟨"a1", "e1", "SUCCEEDED", 90000⟩, ⟨"a2", "e2", "FAILED", 50000⟩] [] [] ∧
    ∃ pre2, pre2 <+:
        [(⟨"a1", "e1", "SUCCEEDED", 90000⟩ : ExecSummary),
         ⟨"a2", "e2", "FAILED", 50000⟩] ∧
      (get_executions envW "sm" 24 "ALL" none none 100000).callsOf =
        pre2.map (·.executionArn)) :=
  ⟨rfl, by decide, by decide,
    C2_early_termination envW "sm" 24 "ALL" none none 100000
      [⟨"a1", "e1", "SUCCEEDED", 90000⟩, ⟨"a2", "e2", "FAILED", 50000⟩]
      [⟨"a4", "e4", "RUNNING", 4000⟩] ⟨"a3", "e3", "SUCCEEDED", 5000⟩
      rfl (by decide) (by decide)⟩

/-- C3 counterexample: the claim predicts that with a name filter set, an
execution whose input is valid JSON but not an object (here `[1]`) is
skipped and the scan continues to the next execution. The code instead
raises an uncaught `AttributeError` from `input_data.get('name')`: the scan
fails after the first detail fetch, never reaching the second in-window
execution, and no result list is returned at all. -/
theorem C3_counterexample :
    envC3.parse "ARR" = some (.arr [JValue.num 1]) ∧
    (envC3.describe "a1").input = some "ARR" ∧
    get_executions envC3 "sm" 24 "ALL" (some "n") none 100000 =
      .failed .attributeError ["a1"] ∧
    ∀ recs c, get_executions envC3 "sm" 24 "ALL" (some "n") none 100000 ≠
      ScanOut.ok recs c := by
  refine ⟨rfl, rfl, rfl, ?_⟩
  intro recs c hok
  rw [show get_executions envC3 "sm" 24 "ALL" (some "n") none 100000 =
      .failed .attributeError ["a1"] from rfl] at hok
  cases hok

/-- C3 amended: when a filter is set, the record is skipped and scanning
continues only for the two failure modes the `except` clause actually
catches: the input string failing to decode as JSON
(`json.JSONDecodeError`), or the detail record lacking an `input` key
(`KeyError`). Input that decodes to a non-object value is not covered:
there the filter evaluation raises an uncaught `AttributeError` that aborts
the scan (see the counterexample). -/
theorem C3_parse_failure_skip_amended (env : SfnEnv) (nf kf : Option String)
    (st : Int) (arn : String) (e : ExecSummary) (rest : List ExecSummary)
    (acc : List Record) (calls : List String)
    (hset : nf.isSome ∨ kf.isSome)
    (hcut : st ≤ e.startDate)
    (hfail : (env.describe e.executionArn).input = none ∨
      ∃ s, (env.describe e.executionArn).input = some s ∧ env.parse s = none) :
    flatScan env nf kf st arn (e :: rest) acc calls =
      flatScan env nf kf st arn rest acc (calls ++ [e.executionArn]) := by
  have hb : (nf.isSome || kf.isSome) = true := by
    rcases hset with hs | hs <;> simp [hs]
  have hp : processInput nf kf (env.describe e.executionArn) env.parse =
      .ok none := by
    rcases hfail with hin | ⟨s, hin, hps⟩
    · simp only [processInput, hin, hb, if_true]
    · simp only [processInput, hin, hps, hb, if_true]
  simp only [flatScan, if_pos hcut, hp]

theorem C3_witness :
    ((some "job-a" : Option String).isSome = true ∨
      (none : Option String).isSome = true) ∧
    (13600 : Int) ≤ 50000 ∧
    ((envW.describe "a2").input = none ∨
      ∃ s, (envW.describe "a2").input = some s ∧ envW.parse s = none) ∧
    flatScan envW (some "job-a") none 13600 "sm"
        [⟨"a2", "e2", "FAILED", 50000⟩, ⟨"a1", "e1", "SUCCEEDED", 90000⟩] [] [] =
      flatScan envW (some "job-a") none 13600 "sm"
        [⟨"a1", "e1", "SUCCEEDED", 90000⟩] [] ([] ++ ["a2"]) :=
  ⟨Or.inl rfl, by decide, Or.inr ⟨"RAW", rfl, rfl⟩,
    C3_parse_failure_skip_amended envW (some "job-a") none 13600 "sm"
      ⟨"a2", "e2", "FAILED", 50000⟩ [⟨"a1", "e1", "SUCCEEDED", 90000⟩] [] []
      (Or.inl rfl) (by decide) (Or.inr ⟨"RAW", rfl, rfl⟩)⟩

/-- C4 counterexample: with the key filter set to the empty string (still a
set filter: `'' is not None`), a record whose parsed input has no `key`
field is returned, because `.get('key', '')` defaults to `''` and the empty
string contains the empty substring. -/
theorem C4_counterexample :
    get_executions envC4 "sm" 24 "ALL" none (some "") 100000 =
      .ok [mkRecord "sm" ⟨"a1", "e1", "SUCCEEDED", 90000⟩
             (.formatted (.obj [("name", JValue.str "x")]))] ["a1"] ∧
    pyGet (.obj [("name", JValue.str "x")]) "key" = .ok none :=
  ⟨rfl, rfl⟩

/-- C4 amended: whenever the key filter is set, every returned record has a
parsed JSON input that passes the key guard (Python
`key_filter in input_data.get('key', '')`); consequently a record whose
parsed input lacks a `key` field can be returned only when the filter is
the empty string, and whenever the `key` field is a string it contains the
filter as a substring. Unparseable records are excluded (every returned
input is a parsed value). -/
theorem C4_key_filter_amended (env : SfnEnv) (arn : String) (hours : Int)
    (status : String) (nf : Option String) (k : String) (now : Int)
    (recs : List Record) (c : List String)
    (h : get_executions env arn hours status nf (some k) now = .ok recs c) :
    ∀ r ∈ recs, ∃ v, r.input = .formatted v ∧ checkKey (some k) v = .ok true ∧
      (pyGet v "key" = .ok none → k = "") ∧
      (∀ w, pyGet v "key" = .ok (some (JValue.str w)) → strContains w k = true) := by
  rw [get_executions_eq_flatScan] at h
  refine flatScan_ok_pres env nf (some k) (now - 3600 * hours) arn
    (fun r => ∃ v, r.input = .formatted v ∧ checkKey (some k) v = .ok true ∧
      (pyGet v "key" = .ok none → k = "") ∧
      (∀ w, pyGet v "key" = .ok (some (JValue.str w)) → strContains w k = true))
    ?_ _ [] [] recs c (by simp) h
  intro e ri hcut hp
  obtain ⟨v, hri, _, hk⟩ :=
    processInput_keep nf (some k) (env.describe e.executionArn) env.parse ri
      (Or.inr rfl) hp
  exact ⟨v, by simp [mkRecord, hri], hk,
    fun hg => checkKey_absent k v hk hg,
    fun w hg => checkKey_str k w v hk hg⟩

theorem C4_witness :
    get_executions envW "sm" 24 "ALL" none (some "batch") 100000 =
      .ok [mkRecord "sm" ⟨"a1", "e1", "SUCCEEDED", 90000⟩
             (.formatted (.obj [("name", JValue.str "job-a"),
               ("key", JValue.str "batch-42")]))] ["a1", "a2"] ∧
    ∀ r ∈ [mkRecord "sm" ⟨"a1", "e1", "SUCCEEDED", 90000⟩
             (.formatted (.obj [("name", JValue.str "job-a"),
               ("key", JValue.str "batch-42")]))],
      ∃ v, r.input = .formatted v ∧ checkKey (some "batch") v = .ok true ∧
        (pyGet v "key" = .ok none → "batch" = "") ∧
        (∀ w, pyGet v "key" = .ok (some (JValue.str w)) →
          strContains w "batch" = true) :=
  ⟨rfl, C4_key_filter_amended envW "sm" 24 "ALL" none "batch" 100000 _ _ rfl⟩

/-- C5: whenever the name filter is set, every record returned by the scan
carries a successfully parsed input whose `name` field is exactly the
filter string; in particular every record whose input failed to parse is
excluded (each returned input is a parsed value, never a raw string). -/
theorem C5_name_filter (env : SfnEnv) (arn : String) (hours : Int)
    (status : String) (n : String) (kf : Option String) (now : Int)
    (recs : List Record) (c : List String)
    (h : get_executions env arn hours status (some n) kf now = .ok recs c) :
    ∀ r ∈ recs, ∃ v, r.input = .formatted v ∧
      pyGet v "name" = .ok (some (JValue.str n)) := by
  rw [get_executions_eq_flatScan] at h
  refine flatScan_ok_pres env (some n) kf (now - 3600 * hours) arn
    (fun r => ∃ v, r.input = .formatted v ∧
      pyGet v "name" = .ok (some (JValue.str n))) ?_ _ [] [] recs c (by simp) h
  intro e ri hcut hp
  obtain ⟨v, hri, hn, _⟩ :=
    processInput_keep (some n) kf (env.describe e.executionArn) env.parse ri
      (Or.inl rfl) hp
  exact ⟨v, by simp [mkRecord, hri], checkName_some_true n v hn⟩

theorem C5_witness :
    get_executions envW "sm" 24 "ALL" (some "job-a") none 100000 =
      .ok [mkRecord "sm" ⟨"a1", "e1", "SUCCEEDED", 90000⟩
             (.formatted (.obj [("name", JValue.str "job-a"),
               ("key", JValue.str "batch-42")]))] ["a1", "a2"] ∧
    ∀ r ∈ [mkRecord "sm" ⟨"a1", "e1", "SUCCEEDED", 90000⟩
             (.formatted (.obj [("name", JValue.str "job-a"),
               ("key", JValue.str "batch-42")]))],
      ∃ v, r.input = .formatted v ∧
        pyGet v "name" = .ok (some (JValue.str "job-a")) :=
  ⟨rfl, C5_name_filter envW "sm" 24 "ALL" "job-a" none 100000 _ _ rfl⟩

/-- C6: with neither filter set, an in-window execution whose input string
fails to parse as JSON is kept: the scan step appends a record holding the
raw input string unchanged, and that record is a member of any final
result list of the scan. -/
theorem C6_no_filters_raw_kept (env : SfnEnv) (st : Int) (arn : String)
    (e : ExecSummary) (rest : List ExecSummary) (acc : List Record)
    (calls : List String) (s : String)
    (hin : (env.describe e.executionArn).input = some s)
    (hps : env.parse s = none)
    (hcut : st ≤ e.startDate) :
    flatScan env none none st arn (e :: rest) acc calls =
      flatScan env none none st arn rest (acc ++ [mkRecord arn e (.raw s)])
        (calls ++ [e.executionArn]) ∧
    ∀ recs c, flatScan env none none st arn (e :: rest) acc calls = .ok recs c →
      mkRecord arn e (.raw s) ∈ recs := by
  have hp : processInput none none (env.describe e.executionArn) env.parse =
      .ok (some (.raw s)) := by
    simp [processInput, hin, hps]
  have h1 : flatScan env none none st arn (e :: rest) acc calls =
      flatScan env none none st arn rest (acc ++ [mkRecord arn e (.raw s)])
        (calls ++ [e.executionArn]) := by
    simp only [flatScan, if_pos hcut, hp]
  refine ⟨h1, ?_⟩
  intro recs c hok
  rw [h1] at hok
  obtain ⟨t, ht⟩ := flatScan_ok_mono env none none st arn rest _ _ recs c hok
  rw [ht]
  simp

theorem C6_witness :
    (envW.describe "a2").input = some "RAW" ∧
    envW.parse "RAW" = none ∧
    (13600 : Int) ≤ 50000 ∧
    (flatScan envW none none 13600 "sm"
        [⟨"a2", "e2", "FAILED", 50000⟩] [] [] =
      flatScan envW none none 13600 "sm" []
        ([] ++ [mkRecord "sm" ⟨"a2", "e2", "FAILED", 50000⟩ (.raw "RAW")])
        ([] ++ ["a2"]) ∧
    ∀ recs c, flatScan envW none none 13600 "sm"
        [⟨"a2", "e2", "FAILED", 50000⟩] [] [] = .ok recs c →
      mkRecord "sm" ⟨"a2", "e2", "FAILED", 50000⟩ (.raw "RAW") ∈ recs) :=
  ⟨rfl, rfl, by decide,
    C6_no_filters_raw_kept envW 13600 "sm" ⟨"a2", "e2", "FAILED", 50000⟩ [] [] []
      "RAW" rfl rfl (by decide)⟩

/-- C7: the execution-listing request built by `get_executions` carries a
`statusFilter` exactly when the status argument is not `ALL` (then it is
that concrete status); for `ALL` the field is omitted and the request holds
only the state machine ARN. -/
theorem C7_status_filter (env : SfnEnv) (arn : String) (hours : Int)
    (status : String) (nf kf : Option String) (now : Int) :
    (status = "ALL" →
      get_executions env arn hours status nf kf now =
        scanPages env nf kf (now - 3600 * hours) arn
          (env.paginate { stateMachineArn := arn, statusFilter := none }) [] []) ∧
    (status ≠ "ALL" →
      get_executions env arn hours status nf kf now =
        scanPages env nf kf (now - 3600 * hours) arn
          (env.paginate { stateMachineArn := arn, statusFilter := some status })
          [] []) := by
  constructor
  · intro h
    simp [get_executions, paginatorArgs, h]
  · intro h
    simp [get_executions, paginatorArgs, h]

theorem C7_witness :
    ("ALL" = "ALL" ∧
      get_executions envW "sm" 24 "ALL" none none 100000 =
        scanPages envW none none (100000 - 3600 * 24) "sm"
          (envW.paginate { stateMachineArn := "sm", statusFilter := none })
          [] []) ∧
    ("FAILED" ≠ "ALL" ∧
      get_executions envW "sm" 24 "FAILED" none none 100000 =
        scanPages envW none none (100000 - 3600 * 24) "sm"
          (envW.paginate
            { stateMachineArn := "sm", statusFilter := some "FAILED" })
          [] []) :=
  ⟨⟨rfl, (C7_status_filter envW "sm" 24 "ALL" none none 100000).1 rfl⟩,
   ⟨by decide, (C7_status_filter envW "sm" 24 "FAILED" none none 100000).2
      (by decide)⟩⟩

/-! Helper lemmas for the entry point and for order preservation. -/

theorem mainLoop_spec (env : SfnEnv) (args : Args) (now : Int) :
    ∀ sms : List String,
    (mainLoop env args now sms = (0, none) ∨
      ∃ e, mainLoop env args now sms = (1, some e)) ∧
    (mainLoop env args now sms = (0, none) ↔
      ∀ sm ∈ sms, (get_executions env sm args.hours args.status args.name
        args.key_contains now).isOk = true) := by
  intro sms
  induction sms with
  | nil =>
      refine ⟨Or.inl rfl, ?_⟩
      simp [mainLoop]
  | cons sm rest ih =>
      cases hs : get_executions env sm args.hours args.status args.name
          args.key_contains now with
      | failed e c =>
          refine ⟨Or.inr ⟨e, by simp [mainLoop, hs]⟩, ?_⟩
          simp only [mainLoop, hs]
          constructor
          · intro h
            exact absurd h (by simp)
          · intro hall
            have h1 := hall sm (by simp)
            rw [hs] at h1
            simp [ScanOut.isOk] at h1
      | ok r c =>
          obtain ⟨ih1, ih2⟩ := ih
          refine ⟨by simpa [mainLoop, hs] using ih1, ?_⟩
          simp only [mainLoop, hs]
          rw [ih2]
          constructor
          · intro hall sm2 hm
            rcases List.mem_cons.mp hm with rfl | hm
            · rw [hs]; rfl
            · exact hall sm2 hm
          · intro hall sm2 hm
            exact hall sm2 (List.mem_cons_of_mem sm hm)

theorem flatScan_sorted (env : SfnEnv) (nf kf : Option String)
    (st : Int) (arn : String) :
    ∀ (l : List ExecSummary) (acc : List Record) (calls : List String)
      (recs : List Record) (c : List String),
    List.Pairwise (fun a b => b.startDate ≤ a.startDate) l →
    List.Pairwise (fun a b => b.start_date ≤ a.start_date) acc →
    (∀ r ∈ acc, ∀ x ∈ l, x.startDate ≤ r.start_date) →
    flatScan env nf kf st arn l acc calls = .ok recs c →
    List.Pairwise (fun a b => b.start_date ≤ a.start_date) recs := by
  intro l
  induction l with
  | nil =>
      intro acc calls recs c _ hacc _ h
      simp only [flatScan] at h
      cases h
      exact hacc
  | cons e l ih =>
      intro acc calls recs c hl hacc hcross h
      simp only [flatScan] at h
      by_cases hcut : st ≤ e.startDate
      · rw [if_pos hcut] at h
        cases hp : processInput nf kf (env.describe e.executionArn) env.parse with
        | error err => rw [hp] at h; cases h
        | ok o =>
            rw [hp] at h
            cases o with
            | none =>
                exact ih acc _ recs c (List.pairwise_cons.mp hl).2 hacc
                  (fun r hr x hx => hcross r hr x (List.mem_cons_of_mem e hx)) h
            | some ri =>
                refine ih (acc ++ [mkRecord arn e ri]) _ recs c
                  (List.pairwise_cons.mp hl).2 ?_ ?_ h
                · rw [List.pairwise_append]
                  refine ⟨hacc, List.pairwise_singleton _ _, ?_⟩
                  intro a ha b hb
                  rcases List.mem_singleton.mp hb with rfl
                  simpa [mkRecord] using hcross a ha e (by simp)
                · intro r hr x hx
                  rcases List.mem_append.mp hr with hr | hr
                  · exact hcross r hr x (List.mem_cons_of_mem e hx)
                  · rcases List.mem_singleton.mp hr with rfl
                    simpa [mkRecord] using (List.pairwise_cons.mp hl).1 x hx
      · rw [if_neg hcut] at h
        cases h
        exact hacc

/-- C8: the entry point returns exit code 0 with no error report exactly
when target resolution succeeds and the scan of every resolved state
machine completes without an uncaught exception (a successful scan with
zero records still counts as success); in every other case, including a
Discovery failure, it reports the error and returns exit code 1. -/
theorem C8_exit_codes (env : SfnEnv)
    (smPages : Except PyError (List (List String))) (args : Args) (now : Int) :
    (mainFn env smPages args now = (0, none) ∨
      ∃ e, mainFn env smPages args now = (1, some e)) ∧
    (mainFn env smPages args now = (0, none) ↔
      ∃ sms, resolveTargets args smPages = .ok sms ∧
        ∀ sm ∈ sms, (get_executions env sm args.hours args.status args.name
          args.key_contains now).isOk = true) := by
  cases hr : resolveTargets args smPages with
  | error e =>
      refine ⟨Or.inr ⟨e, by simp [mainFn, hr]⟩, ?_⟩
      simp only [mainFn, hr]
      constructor
      · intro h
        exact absurd h (by simp)
      · rintro ⟨sms, hsms, -⟩
        cases hsms
  | ok sms =>
      obtain ⟨h1, h2⟩ := mainLoop_spec env args now sms
      refine ⟨by simpa [mainFn, hr] using h1, ?_⟩
      simp only [mainFn, hr]
      rw [h2]
      constructor
      · intro hall
        exact ⟨sms, rfl, hall⟩
      · rintro ⟨sms2, hsms2, hall⟩
        injection hsms2 with hse
        subst hse
        exact hall

/-- C9: provided the flattened pages delivered by the service are in
start-time descending order, the record list returned by the scan is in
start-time descending order as well: the scan appends kept records in
visit order and never reorders them. -/
theorem C9_descending_preserved (env : SfnEnv) (arn : String) (hours : Int)
    (status : String) (nf kf : Option String) (now : Int)
    (recs : List Record) (c : List String)
    (hsort : List.Pairwise (fun a b => b.startDate ≤ a.startDate)
      (env.paginate (paginatorArgs arn status)).flatten)
    (h : get_executions env arn hours status nf kf now = .ok recs c) :
    List.Pairwise (fun a b => b.start_date ≤ a.start_date) recs := by
  rw [get_executions_eq_flatScan] at h
  exact flatScan_sorted env nf kf (now - 3600 * hours) arn _ [] [] recs c
    hsort (by simp) (by simp) h

theorem C9_witness :
    List.Pairwise (fun a b => b.startDate ≤ a.startDate)
      (envW.paginate (paginatorArgs "sm" "ALL")).flatten ∧
    get_executions envW "sm" 24 "ALL" none none 100000 =
      .ok [mkRecord "sm" ⟨"a1", "e1", "SUCCEEDED", 90000⟩
             (.formatted (.obj [("name", JValue.str "job-a"),
               ("key", JValue.str "batch-42")])),
           mkRecord "sm" ⟨"a2", "e2", "FAILED", 50000⟩ (.raw "RAW")]
        ["a1", "a2"] ∧
    List.Pairwise (fun a b => b.start_date ≤ a.start_date)
      [mkRecord "sm" ⟨"a1", "e1", "SUCCEEDED", 90000⟩
         (.formatted (.obj [("name", JValue.str "job-a"),
           ("key", JValue.str "batch-42")])),
       mkRecord "sm" ⟨"a2", "e2", "FAILED", 50000⟩ (.raw "RAW")] :=
  ⟨by decide, rfl,
    C9_descending_preserved envW "sm" 24 "ALL" none none 100000 _ _
      (by decide) rfl⟩

/-- C10: with neither filter set, an in-window execution whose detail
record has no `input` key at all is still kept: the `KeyError` from
`execution_details['input']` is caught and the record is appended with the
literal text `No input available` as its input, and that record is a
member of any final result list of the scan. -/
theorem C10_missing_input_default (env : SfnEnv) (st : Int) (arn : String)
    (e : ExecSummary) (rest : List ExecSummary) (acc : List Record)
    (calls : List String)
    (hin : (env.describe e.executionArn).input = none)
    (hcut : st ≤ e.startDate) :
    flatScan env none none st arn (e :: rest) acc calls =
      flatScan env none none st arn rest
        (acc ++ [mkRecord arn e (.raw "No input available")])
        (calls ++ [e.executionArn]) ∧
    ∀ recs c, flatScan env none none st arn (e :: rest) acc calls = .ok recs c →
      mkRecord arn e (.raw "No input available") ∈ recs := by
  have hp : processInput none none (env.describe e.executionArn) env.parse =
      .ok (some (.raw "No input available")) := by
    simp [processInput, hin]
  have h1 : flatScan env none none st arn (e :: rest) acc calls =
      flatScan env none none st arn rest
        (acc ++ [mkRecord arn e (.raw "No input available")])
        (calls ++ [e.executionArn]) := by
    simp only [flatScan, if_pos hcut, hp]
  refine ⟨h1, ?_⟩
  intro recs c hok
  rw [h1] at hok
  obtain ⟨t, ht⟩ := flatScan_ok_mono env none none st arn rest _ _ recs c hok
  rw [ht]
  simp

theorem C10_witness :
    (envW.describe "a3").input = none ∧
    (1000 : Int) ≤ 5000 ∧
    (flatScan envW none none 1000 "sm"
        [⟨"a3", "e3", "SUCCEEDED", 5000⟩] [] [] =
      flatScan envW none none 1000 "sm" []
        ([] ++ [mkRecord "sm" ⟨"a3", "e3", "SUCCEEDED", 5000⟩
          (.raw "No input available")])
        ([] ++ ["a3"]) ∧
    ∀ recs c, flatScan envW none none 1000 "sm"
        [⟨"a3", "e3", "SUCCEEDED", 5000⟩] [] [] = .ok recs c →
      mkRecord "sm" ⟨"a3", "e3", "SUCCEEDED", 5000⟩
        (.raw "No input available") ∈ recs) :=
  ⟨rfl, by decide,
    C10_missing_input_default envW 1000 "sm" ⟨"a3", "e3", "SUCCEEDED", 5000⟩
      [] [] [] rfl (by decide)⟩
